import Mathlib

/-!
Verification of the state-management core of the historical-court agent
pipeline (src/Agent.py).

The Python source keeps all per-run data in a session state: a mutable
string-keyed dictionary whose values are strings, lists of strings, or
integers.  We embed that store as an association list of `FieldName × Value`
with dictionary semantics (`get` finds the first binding, `set` replaces
it in place or appends a fresh binding).  The four tool functions
`set_state`, `append_state`, `reset_case` and `write_file` are translated
directly from the source; the agent combinators (`LoopAgent`,
`SequentialAgent`) and the LLM-driven judge live outside the repository,
so their semantics are modelled from the specification where a claim
needs them (each such definition is marked in its doc comment).
-/

/-- A value stored in the session state dictionary: the Python code puts
strings, lists of strings, and integers (the round counters) into it. -/
inductive Value where
  | str (v : String)
  | list (v : List String)
  | int (v : Int)
deriving DecidableEq, Repr

abbrev FieldName := String

/-- The session state: `tool_context.state` in the source, a string-keyed
dictionary, embedded as an association list. -/
abbrev State := List (FieldName × Value)

namespace State

/-- Dictionary read: the first binding for `f`, if any
(`tool_context.state.get(field, default)` / `state[field]`). -/
def get (st : State) (f : FieldName) : Option Value :=
  match st with
  | [] => none
  | (g, w) :: rest => if g = f then some w else get rest f

/-- Dictionary write: replace the first binding for `f`, or add one
(`tool_context.state[field] = value`). -/
def set (st : State) (f : FieldName) (v : Value) : State :=
  match st with
  | [] => [(f, v)]
  | (g, w) :: rest => if g = f then (f, v) :: rest else (g, w) :: set rest f v

@[simp]
theorem get_set_self (st : State) (f : FieldName) (v : Value) :
    (st.set f v).get f = some v := by
  induction st with
  | nil => simp [get, set]
  | cons hd tl ih =>
    obtain ⟨g, w⟩ := hd
    by_cases h : g = f <;> simp [get, set, h, ih]

theorem get_set_ne (st : State) (f g : FieldName) (v : Value) (hne : g ≠ f) :
    (st.set f v).get g = st.get g := by
  induction st with
  | nil => simp [get, set, Ne.symm hne]
  | cons hd tl ih =>
    obtain ⟨k, w⟩ := hd
    by_cases h : k = f
    · subst h
      simp [get, set, Ne.symm hne]
    · by_cases h2 : k = g
      · subst h2
        simp [get, set, h, hne]
      · simp [get, set, h, h2, ih]

end State

/-- Embeds `set_state(tool_context, field, value)` from src/Agent.py:
writes `value` into `state[field]` and returns `{"status": "success"}`.
The returned status dictionary is embedded as the status string. -/
def set_state (st : State) (field : FieldName) (value : Value) : State × String :=
  (st.set field value, "success")

/-- Embeds `append_state(tool_context, field, value)` from src/Agent.py:
`existing = state.get(field, [])`; a non-list `existing` is replaced by
`[]`; `value` is appended and the list written back; returns success. -/
def append_state (st : State) (field : FieldName) (value : String) : State × String :=
  let existing : List String :=
    match st.get field with
    | some (Value.list xs) => xs
    | _ => []
  (st.set field (Value.list (existing ++ [value])), "success")

/-- Embeds `reset_case(tool_context)` from src/Agent.py: sets the six case
fields to their empty/zero values and returns `{"status": "reset"}`. -/
def reset_case (st : State) : State × String :=
  let st := st.set "topic" (Value.str "")
  let st := st.set "pos_data" (Value.list [])
  let st := st.set "neg_data" (Value.list [])
  let st := st.set "judge_feedback" (Value.str "")
  let st := st.set "pos_round" (Value.int 0)
  let st := st.set "neg_round" (Value.int 0)
  (st, "reset")

/-- Tests whether a stored value is a Python list (the sequence case of
`append_state`'s isinstance check). -/
def Value.isList : Value → Bool
  | .list _ => true
  | _ => false

/-- The list currently stored at field `f`, read the way `append_state`
reads it: a missing or non-list value counts as the empty list. -/
def listAt (st : State) (f : FieldName) : List String :=
  match st.get f with
  | some (Value.list xs) => xs
  | _ => []

/-- Length of the `pos_data` evidence list. -/
def posLen (st : State) : Nat := (listAt st "pos_data").length

/-- Length of the `neg_data` evidence list. -/
def negLen (st : State) : Nat := (listAt st "neg_data").length

-- FILE PERSISTENCE (write_file)

/-- A model of the pieces of the filesystem `write_file` touches:
the set of existing directories and a map from path to file content. -/
structure FileSystem where
  dirs : List String
  files : List (String × String)
deriving DecidableEq, Repr

/-- Models Python `os.path.join(directory, filename)` for two POSIX
components: an absolute second component replaces the first; otherwise
they are joined with a single "/" separator. -/
def joinPath (directory filename : String) : String :=
  if filename.startsWith "/" then filename
  else if directory = "" then filename
  else if directory.endsWith "/" then directory ++ filename
  else directory ++ "/" ++ filename

/-- Overwrites (or creates) the file at `p` in a path-to-content map. -/
def writeMap (m : List (String × String)) (p c : String) : List (String × String) :=
  match m with
  | [] => [(p, c)]
  | (q, d) :: rest => if q = p then (p, c) :: rest else (q, d) :: writeMap rest p c

/-- Reads the file at `p` from a path-to-content map. -/
def readMap (m : List (String × String)) (p : String) : Option String :=
  match m with
  | [] => none
  | (q, d) :: rest => if q = p then some d else readMap rest p

/-- Embeds `write_file(tool_context, directory, filename, content)` from
src/Agent.py: `os.makedirs(directory, exist_ok=True)` (create the
directory if absent, no error if present), write `content` to
`os.path.join(directory, filename)` (truncating mode "w" overwrites),
return `{"status": "success", "path": path}`. -/
def write_file (fs : FileSystem) (directory filename content : String) :
    FileSystem × String × String :=
  let dirs := if directory ∈ fs.dirs then fs.dirs else fs.dirs ++ [directory]
  let path := joinPath directory filename
  (⟨dirs, writeMap fs.files path content⟩, "success", path)

-- ADJUDICATOR (judge)

/-- The templated feedback of the judge's rule 1 (src/Agent.py lines
172-174), interpolating the current `neg_data` count. -/
def negFeedback (n : Nat) : String :=
  "Found only " ++ toString n ++
    " points. Please find MORE specific controversies or failed projects."

/-- The templated feedback of the judge's rule 2 (src/Agent.py lines
177-179), interpolating the current `pos_data` count. -/
def posFeedback (n : Nat) : String :=
  "Found only " ++ toString n ++
    " points. Please find MORE diverse achievements in science, art, or engineering."

/-- Outcome of one Adjudicator evaluation: the feedback written (if any)
and whether `exit_loop` was called. -/
structure JudgeDecision where
  feedback : Option String
  exitCalled : Bool
deriving DecidableEq, Repr

/-- Modelled from the spec: the Adjudicator's decision rule (§4.4).  In
the source this rule exists only as LLM instruction text of the agent
`judge` (src/Agent.py lines 156-188), not as a deterministic function;
the spec fixes the intended rule: branches evaluated in fixed priority
order, negative side first, exactly one branch fires per round. -/
def judge_decide (pos neg : List String) : JudgeDecision :=
  if neg.length < 4 then ⟨some (negFeedback neg.length), false⟩
  else if pos.length < 4 then ⟨some (posFeedback pos.length), false⟩
  else ⟨none, true⟩

-- BOUNDED LOOP (court_trial)

/-- The `max_iterations=6` argument of `court_trial = LoopAgent(...)`
(src/Agent.py line 194). -/
def court_trial_max_iterations : Nat := 6

/-- Modelled from the spec: the ADK `LoopAgent` runtime used by
`court_trial` (§4.5) — repeat the round body until it signals completion
(terminating immediately) or the round counter reaches the maximum.
`step` returns the new state and whether `exit_loop` was signalled; the
result is the final state and the number of rounds executed. -/
def runLoop (step : State → State × Bool) : Nat → State → State × Nat
  | 0, st => (st, 0)
  | n + 1, st =>
    if (step st).2 then ((step st).1, 1)
    else ((runLoop step n (step st).1).1, (runLoop step n (step st).1).2 + 1)

/-- Modelled from the spec: the individual Store mutations a loop round
may perform (§4.3, §4.4): the Advocate appends into `pos_data`, the
Opponent appends into `neg_data`, the Adjudicator overwrites
`judge_feedback`.  All three are the repo's own tools. -/
inductive LoopOp where
  | appendPos (v : String)
  | appendNeg (v : String)
  | setFeedback (v : String)
deriving DecidableEq, Repr

/-- Applies one loop mutation to the state via the repo's tools. -/
def LoopOp.apply (st : State) : LoopOp → State
  | .appendPos v => (append_state st "pos_data" v).1
  | .appendNeg v => (append_state st "neg_data" v).1
  | .setFeedback v => (set_state st "judge_feedback" (Value.str v)).1

/-- Applies a sequence of loop mutations in order. -/
def applyOps (st : State) (ops : List LoopOp) : State :=
  ops.foldl LoopOp.apply st

/-- Writes the Adjudicator's feedback (if any) into `judge_feedback`
via the repo's `set_state` tool. -/
def feedbackWrite (st : State) (fb : Option String) : State :=
  match fb with
  | some m => (set_state st "judge_feedback" (Value.str m)).1
  | none => st

/-- Modelled from the spec: the Fan-Out half of one simulated loop round
for the termination property of §8 — each worker appends exactly two
items into its own field via `append_state`. -/
def simRoundState (st : State) : State :=
  (append_state
    (append_state
      (append_state
        (append_state st "pos_data" "pos-a").1
        "pos_data" "pos-b").1
      "neg_data" "neg-a").1
    "neg_data" "neg-b").1

/-- Modelled from the spec: one simulated loop round for the termination
property of §8 — the two-item Fan-Out, then the threshold-gate
Adjudicator of §4.4 decides on the updated lists. -/
def simRound (st : State) : State × Bool :=
  let d := judge_decide (listAt (simRoundState st) "pos_data")
    (listAt (simRoundState st) "neg_data")
  (feedbackWrite (simRoundState st) d.feedback, d.exitCalled)

-- SEQUENTIAL PIPELINE (root_agent)

/-- Modelled from the spec: the ADK `SequentialAgent` runtime used by
`root_agent` (§4.7): runs its sub-agent list in order, once, each
step's output state feeding the next. -/
def runSequential (steps : List (State → State)) (st : State) : State :=
  steps.foldl (fun s f => f s) st

/-- The resetter agent's effect: it is instructed to call `reset_case`
once (src/Agent.py lines 234-242). -/
def resetterStep (st : State) : State := (reset_case st).1

/-- Embeds `root_agent = SequentialAgent(sub_agents=[resetter, clerk,
court_trial, verdict_scribe])` (src/Agent.py lines 244-247).  The clerk,
trial loop and scribe invoke the external reasoning capability, so the
pipeline is parametric in their state transformers; the resetter's
effect is the repo's own `reset_case`. -/
def root_agent_run (clerkStep courtTrialStep scribeStep : State → State)
    (st : State) : State :=
  runSequential [resetterStep, clerkStep, courtTrialStep, scribeStep] st

-- HELPER LEMMAS

theorem listAt_append_state_self (st : State) (f : FieldName) (v : String) :
    listAt (append_state st f v).1 f = listAt st f ++ [v] := by
  cases h : st.get f with
  | none => simp [listAt, append_state, h, State.get_set_self]
  | some w => cases w <;> simp [listAt, append_state, h, State.get_set_self]

theorem listAt_append_state_ne (st : State) (f g : FieldName) (v : String)
    (hne : g ≠ f) :
    listAt (append_state st f v).1 g = listAt st g := by
  simp [listAt, append_state, State.get_set_ne _ _ _ _ hne]

theorem listAt_set_state_ne (st : State) (f g : FieldName) (v : Value)
    (hne : g ≠ f) :
    listAt (set_state st f v).1 g = listAt st g := by
  simp [listAt, set_state, State.get_set_ne _ _ _ _ hne]

theorem posLen_append_pos (st : State) (v : String) :
    posLen (append_state st "pos_data" v).1 = posLen st + 1 := by
  simp [posLen, listAt_append_state_self]

theorem negLen_append_neg (st : State) (v : String) :
    negLen (append_state st "neg_data" v).1 = negLen st + 1 := by
  simp [negLen, listAt_append_state_self]

theorem posLen_append_neg (st : State) (v : String) :
    posLen (append_state st "neg_data" v).1 = posLen st := by
  simp [posLen, listAt_append_state_ne st "neg_data" "pos_data" v (by decide)]

theorem negLen_append_pos (st : State) (v : String) :
    negLen (append_state st "pos_data" v).1 = negLen st := by
  simp [negLen, listAt_append_state_ne st "pos_data" "neg_data" v (by decide)]

theorem posLen_set_feedback (st : State) (v : Value) :
    posLen (set_state st "judge_feedback" v).1 = posLen st := by
  simp [posLen, listAt_set_state_ne st "judge_feedback" "pos_data" v (by decide)]

theorem negLen_set_feedback (st : State) (v : Value) :
    negLen (set_state st "judge_feedback" v).1 = negLen st := by
  simp [negLen, listAt_set_state_ne st "judge_feedback" "neg_data" v (by decide)]

theorem readMap_writeMap_self (m : List (String × String)) (p c : String) :
    readMap (writeMap m p c) p = some c := by
  induction m with
  | nil => simp [readMap, writeMap]
  | cons hd tl ih =>
    obtain ⟨q, d⟩ := hd
    by_cases h : q = p <;> simp [readMap, writeMap, h, ih]

theorem posLen_loopOp_le (st : State) (op : LoopOp) :
    posLen st ≤ posLen (LoopOp.apply st op) := by
  cases op with
  | appendPos v => simp [LoopOp.apply, posLen_append_pos]
  | appendNeg v => simp [LoopOp.apply, posLen_append_neg]
  | setFeedback v => simp [LoopOp.apply, posLen_set_feedback]

theorem negLen_loopOp_le (st : State) (op : LoopOp) :
    negLen st ≤ negLen (LoopOp.apply st op) := by
  cases op with
  | appendPos v => simp [LoopOp.apply, negLen_append_pos]
  | appendNeg v => simp [LoopOp.apply, negLen_append_neg]
  | setFeedback v => simp [LoopOp.apply, negLen_set_feedback]

theorem posLen_applyOps_le (ops : List LoopOp) :
    ∀ st : State, posLen st ≤ posLen (applyOps st ops) := by
  induction ops with
  | nil => intro st; simp [applyOps]
  | cons op rest ih =>
    intro st
    calc posLen st ≤ posLen (LoopOp.apply st op) := posLen_loopOp_le st op
      _ ≤ posLen (applyOps (LoopOp.apply st op) rest) := ih _
      _ = posLen (applyOps st (op :: rest)) := by simp [applyOps, List.foldl]

theorem negLen_applyOps_le (ops : List LoopOp) :
    ∀ st : State, negLen st ≤ negLen (applyOps st ops) := by
  induction ops with
  | nil => intro st; simp [applyOps]
  | cons op rest ih =>
    intro st
    calc negLen st ≤ negLen (LoopOp.apply st op) := negLen_loopOp_le st op
      _ ≤ negLen (applyOps (LoopOp.apply st op) rest) := ih _
      _ = negLen (applyOps st (op :: rest)) := by simp [applyOps, List.foldl]

theorem runLoop_succ (step : State → State × Bool) (n : Nat) (st : State) :
    runLoop step (n + 1) st =
      if (step st).2 then ((step st).1, 1)
      else ((runLoop step n (step st).1).1, (runLoop step n (step st).1).2 + 1) :=
  rfl

theorem runLoop_rounds_of_never (step : State → State × Bool)
    (hnever : ∀ s, (step s).2 = false) :
    ∀ (n : Nat) (st : State), (runLoop step n st).2 = n := by
  intro n
  induction n with
  | zero => intro st; rfl
  | succ m ih =>
    intro st
    rw [runLoop_succ, hnever st]
    simp [ih]

theorem posLen_feedbackWrite (st : State) (fb : Option String) :
    posLen (feedbackWrite st fb) = posLen st := by
  cases fb <;> simp [feedbackWrite, posLen_set_feedback]

theorem negLen_feedbackWrite (st : State) (fb : Option String) :
    negLen (feedbackWrite st fb) = negLen st := by
  cases fb <;> simp [feedbackWrite, negLen_set_feedback]

theorem judge_exit_iff (pos neg : List String) :
    (judge_decide pos neg).exitCalled = true ↔
      4 ≤ pos.length ∧ 4 ≤ neg.length := by
  unfold judge_decide
  by_cases h1 : neg.length < 4 <;> by_cases h2 : pos.length < 4 <;> simp [h1, h2]
  all_goals omega

theorem posLen_simRoundState (st : State) :
    posLen (simRoundState st) = posLen st + 2 := by
  simp [simRoundState, posLen_append_pos, posLen_append_neg]

theorem negLen_simRoundState (st : State) :
    negLen (simRoundState st) = negLen st + 2 := by
  simp [simRoundState, negLen_append_pos, negLen_append_neg]

theorem simRound_posLen (st : State) :
    posLen (simRound st).1 = posLen st + 2 := by
  simp [simRound, posLen_feedbackWrite, posLen_simRoundState]

theorem simRound_negLen (st : State) :
    negLen (simRound st).1 = negLen st + 2 := by
  simp [simRound, negLen_feedbackWrite, negLen_simRoundState]

theorem simRound_exit (st : State) :
    (simRound st).2 = true ↔
      4 ≤ posLen (simRound st).1 ∧ 4 ≤ negLen (simRound st).1 := by
  have h2 : posLen (simRound st).1 = posLen (simRoundState st) := by
    simp [simRound, posLen_feedbackWrite]
  have h3 : negLen (simRound st).1 = negLen (simRoundState st) := by
    simp [simRound, negLen_feedbackWrite]
  have h1 : (simRound st).2
      = (judge_decide (listAt (simRoundState st) "pos_data")
          (listAt (simRoundState st) "neg_data")).exitCalled := rfl
  rw [h1, judge_exit_iff, h2, h3]
  exact Iff.rfl

-- CLAIM THEOREMS

/-- C1: for every field name and string value, calling `append_state` on
that field and then immediately reading the field yields a list whose
last element is the appended value and whose length is one greater than
before (or exactly 1 if the prior value was not a list), and the call
returns success. -/
theorem append_then_read (st : State) (f : FieldName) (v : String) :
    ∃ xs : List String,
      (append_state st f v).1.get f = some (Value.list xs) ∧
      xs.getLast? = some v ∧
      (match st.get f with
        | some (Value.list ys) => xs.length = ys.length + 1
        | _ => xs.length = 1) ∧
      (append_state st f v).2 = "success" := by
  refine ⟨listAt st f ++ [v], ?_, ?_, ?_, rfl⟩
  · cases h : st.get f with
    | none => simp [append_state, listAt, h]
    | some w => cases w <;> simp [append_state, listAt, h]
  · exact List.getLast?_concat _
  · cases h : st.get f with
    | none => simp [listAt, h]
    | some w => cases w <;> simp [listAt, h]

/-- C2: after any call to `reset_case`, reading `topic` yields "",
`pos_data` yields [], `neg_data` yields [], `judge_feedback` yields "",
`pos_round` and `neg_round` yield 0, regardless of the store's prior
contents, and `reset_case` returns the confirmation "reset". -/
theorem reset_case_reads (st : State) :
    (reset_case st).1.get "topic" = some (Value.str "") ∧
    (reset_case st).1.get "pos_data" = some (Value.list []) ∧
    (reset_case st).1.get "neg_data" = some (Value.list []) ∧
    (reset_case st).1.get "judge_feedback" = some (Value.str "") ∧
    (reset_case st).1.get "pos_round" = some (Value.int 0) ∧
    (reset_case st).1.get "neg_round" = some (Value.int 0) ∧
    (reset_case st).2 = "reset" := by
  refine ⟨?_, ?_, ?_, ?_, ?_, ?_, rfl⟩ <;>
    simp [reset_case, State.get_set_ne, State.get_set_self]

/-- C3: no loop mutation (Advocate append, Opponent append, Adjudicator
feedback write) removes elements: over any sequence of loop mutations the
lengths of `pos_data` and `neg_data` are non-negative and non-decreasing. -/
theorem loop_lengths_monotone (st : State) (ops : List LoopOp) :
    0 ≤ posLen (applyOps st ops) ∧ 0 ≤ negLen (applyOps st ops) ∧
    posLen st ≤ posLen (applyOps st ops) ∧
    negLen st ≤ negLen (applyOps st ops) :=
  ⟨Nat.zero_le _, Nat.zero_le _, posLen_applyOps_le ops st, negLen_applyOps_le ops st⟩

/-- C4: given a round body that never signals completion, the bounded
loop with `max_iterations=6` (src/Agent.py line 194) executes exactly 6
rounds and stops, regardless of the starting state. -/
theorem court_trial_cap (step : State → State × Bool)
    (hnever : ∀ s, (step s).2 = false) (st : State) :
    (runLoop step court_trial_max_iterations st).2 = court_trial_max_iterations :=
  runLoop_rounds_of_never step hnever court_trial_max_iterations st

theorem court_trial_cap_witness :
    (runLoop (fun s => (s, false)) court_trial_max_iterations []).2
      = court_trial_max_iterations :=
  court_trial_cap (fun s => (s, false)) (fun _ => rfl) []

/-- C5: the Adjudicator's rule is evaluated in fixed priority order with
exactly one branch firing: negative shortfall first, then positive
shortfall, else (both at least 4) completion; in particular with 5
positive and 2 negative points the feedback is the negative-shortfall
template citing the count 2, not the positive count. -/
theorem judge_priority (pos neg : List String) :
    (neg.length < 4 →
      judge_decide pos neg = ⟨some (negFeedback neg.length), false⟩) ∧
    (4 ≤ neg.length → pos.length < 4 →
      judge_decide pos neg = ⟨some (posFeedback pos.length), false⟩) ∧
    (4 ≤ neg.length → 4 ≤ pos.length →
      judge_decide pos neg = ⟨none, true⟩) ∧
    judge_decide ["p1", "p2", "p3", "p4", "p5"] ["n1", "n2"]
      = ⟨some (negFeedback 2), false⟩ := by
  refine ⟨?_, ?_, ?_, rfl⟩
  · intro h
    simp [judge_decide, h]
  · intro h1 h2
    rw [judge_decide, if_neg (by omega), if_pos h2]
  · intro h1 h2
    rw [judge_decide, if_neg (by omega), if_neg (by omega)]

theorem judge_priority_witness :
    judge_decide ["p1", "p2", "p3", "p4", "p5"] ["n1", "n2"]
      = ⟨some (negFeedback 2), false⟩ :=
  (judge_priority ["p1", "p2", "p3", "p4", "p5"] ["n1", "n2"]).1 (by decide)

/-- C7: for every field whose current value is not a list, `append_state`
silently treats the prior value as an empty list: the prior content is
discarded, the field becomes the one-element list [value], and success is
returned (no error). -/
theorem append_non_list (st : State) (f : FieldName) (v : String)
    (h : ∃ w, st.get f = some w ∧ w.isList = false) :
    (append_state st f v).1.get f = some (Value.list [v]) ∧
    (append_state st f v).2 = "success" := by
  obtain ⟨w, hw, hwl⟩ := h
  cases w with
  | str s => simp [append_state, hw]
  | int n => simp [append_state, hw]
  | list xs => simp [Value.isList] at hwl

theorem append_non_list_witness :
    (append_state [("topic", Value.str "Leonardo")] "topic" "x").1.get "topic"
      = some (Value.list ["x"]) ∧
    (append_state [("topic", Value.str "Leonardo")] "topic" "x").2 = "success" :=
  append_non_list [("topic", Value.str "Leonardo")] "topic" "x"
    ⟨Value.str "Leonardo", by decide, rfl⟩

/-- C8: the pipeline is the strict sequential composition, executed once:
reset first, then the Extractor (clerk), then the bounded loop
(court_trial), then the Report Writer (verdict_scribe), each step's
completion unconditionally feeding the next, with no other ordering. -/
theorem root_agent_order (clerkStep courtTrialStep scribeStep : State → State)
    (st : State) :
    root_agent_run clerkStep courtTrialStep scribeStep st
      = scribeStep (courtTrialStep (clerkStep (resetterStep st))) := rfl

/-- C9: for every directory, filename and content, `write_file` makes the
directory present, overwrites the file at the joined path with the given
content, and returns the status "success" together with that path. -/
theorem write_file_spec (fs : FileSystem) (d fn c : String) :
    d ∈ (write_file fs d fn c).1.dirs ∧
    readMap (write_file fs d fn c).1.files (joinPath d fn) = some c ∧
    (write_file fs d fn c).2.1 = "success" ∧
    (write_file fs d fn c).2.2 = joinPath d fn := by
  refine ⟨?_, ?_, rfl, rfl⟩
  · by_cases h : d ∈ fs.dirs <;> simp [write_file, h]
  · simp [write_file, readMap_writeMap_self]

/-- C10: `set_state` writes the named field, leaves every other field of
the store unchanged, and returns success unconditionally. -/
theorem set_state_frame (st : State) (f : FieldName) (v : Value)
    (g : FieldName) (hg : g ≠ f) :
    (set_state st f v).1.get f = some v ∧
    (set_state st f v).1.get g = st.get g ∧
    (set_state st f v).2 = "success" :=
  ⟨State.get_set_self st f v, State.get_set_ne st f g v hg, rfl⟩

theorem set_state_frame_witness :
    (set_state [] "topic" (Value.str "t")).1.get "topic" = some (Value.str "t") ∧
    (set_state [] "topic" (Value.str "t")).1.get "pos_data" = State.get [] "pos_data" ∧
    (set_state [] "topic" (Value.str "t")).2 = "success" :=
  set_state_frame [] "topic" (Value.str "t") "pos_data" (by decide)

/-- C6: given a round body in which the Fan-Out workers append exactly 2
items to each of `pos_data` and `neg_data` and the Adjudicator signals
completion exactly when both lists have reached 4 items, the bounded loop
with `max_iterations=6` started from empty lists terminates at round 2 —
never earlier, never later. -/
theorem loop_terminates_round_two (step : State → State × Bool)
    (hpos : ∀ s, posLen (step s).1 = posLen s + 2)
    (hneg : ∀ s, negLen (step s).1 = negLen s + 2)
    (hexit : ∀ s, (step s).2 = true ↔
      4 ≤ posLen (step s).1 ∧ 4 ≤ negLen (step s).1)
    (st : State) (hp0 : posLen st = 0) (hn0 : negLen st = 0) :
    (runLoop step court_trial_max_iterations st).2 = 2 := by
  have hb1 : (step st).2 = false := by
    rcases Bool.eq_false_or_eq_true (step st).2 with h | h
    · exfalso
      have hx := ((hexit st).1 h).1
      rw [hpos st, hp0] at hx
      omega
    · exact h
  have hb2 : (step (step st).1).2 = true := by
    rw [hexit]
    constructor
    · rw [hpos, hpos, hp0]
    · rw [hneg, hneg, hn0]
  have e1 : runLoop step court_trial_max_iterations st
      = if (step st).2 then ((step st).1, 1)
        else ((runLoop step 5 (step st).1).1, (runLoop step 5 (step st).1).2 + 1) :=
    runLoop_succ step 5 st
  have e2 : runLoop step 5 (step st).1
      = if (step (step st).1).2 then ((step (step st).1).1, 1)
        else ((runLoop step 4 (step (step st).1).1).1,
          (runLoop step 4 (step (step st).1).1).2 + 1) :=
    runLoop_succ step 4 (step st).1
  rw [e1, hb1]
  simp only [Bool.false_eq_true, if_false]
  rw [e2, hb2]
  simp

theorem loop_terminates_round_two_witness :
    (runLoop simRound court_trial_max_iterations (reset_case []).1).2 = 2 :=
  loop_terminates_round_two simRound simRound_posLen simRound_negLen
    simRound_exit (reset_case []).1 (by decide) (by decide)
